import Mathlib

/-!
Verification of `src/filter_rotator_function/template_evaluation.py` from the
amazon-personalize-filter-rotator repository.

The module is a small templating engine: `eval_expression` builds a registry
of names/functions (the simpleeval defaults, the domain helpers, a `now`
binding, and a caller-supplied overlay) and evaluates one expression;
`eval_template` substitutes every `\x7b\x7b expr \x7d\x7d` region of a template by the
stringified value of its body, via `re.sub` with the pattern
`\x7b\x7b([^\x7d]*)\x7d\x7d`.

Embedding conventions:
* Python strings are modelled as `List Char`.
* Python runtime values crossing the engine boundary are the inductive
  `Value`; times are modelled in whole seconds since the epoch.
* Python dicts are association lists with first-match lookup; `d.update(u)`
  is modelled by `dictUpdate d u`, under which `u`'s bindings win.
* Fallible Python code returns `Except EvalErr`.
* The wall clock (`datetime.datetime.now()`) is modelled by a `Clock`
  function from read-index to time together with an explicit read counter
  (`tick`) threaded through the calls; each `now()` call reads `clock tick`
  and increments the counter.
* The third-party libraries (simpleeval, dateutil) are modelled over the
  fragment the repository and the claims exercise; the repository's own code
  is translated in full.
-/

namespace TemplateEval

/-- Python runtime values that can cross the engine boundary.
Times (`datetime.datetime`) are modelled in whole seconds since the epoch,
`datetime.date` by its proleptic ordinal, `datetime.time` by seconds after
midnight, `datetime.timedelta` by its total seconds. -/
inductive Value where
  | VNum (n : Int)
  | VStr (s : List Char)
  | VBool (b : Bool)
  | VNone
  | VDate (ordinal : Int)
  | VTime (secs : Int)
  | VDatetime (epoch : Int)
  | VTimedelta (secs : Int)
  deriving DecidableEq, Repr

/-- Error kinds raised by the engine (section 7 of the spec maps them to
SyntaxError, NameNotDefined, AttributeError, dateutil ParserError,
TypeError). -/
inductive EvalErr where
  | synErr
  | nameErr
  | attrErr
  | parseErr
  | typeErr
  deriving DecidableEq, Repr

/-- A Python dict (string keys), modelled as an association list with
first-match lookup. -/
abbrev Dict := List (String × Value)

/-- Dict lookup: the first binding of the key wins. -/
def dictLookup {α : Type} (d : List (String × α)) (k : String) : Option α :=
  match d with
  | [] => none
  | (k2, v) :: rest => if k2 = k then some v else dictLookup rest k

/-- Model of Python `base.copy()` followed by `.update(upd)`: a dict whose
lookup prefers `upd`'s bindings and falls back to `base`. -/
def dictUpdate {α : Type} (base upd : List (String × α)) : List (String × α) :=
  upd ++ base

/-- Python attribute call `v.timestamp()`: only `datetime.datetime` defines a
`timestamp` method; `datetime.date` and `datetime.time` do not, so the call
raises `AttributeError` on them (and on every other value). -/
def timestampMethod : Value → Except EvalErr Value
  | Value.VDatetime t => Except.ok (Value.VNum t)
  | _ => Except.error EvalErr.attrErr

/-- Decimal digits to a natural number. -/
def digitsToNat (cs : List Char) : Nat :=
  cs.foldl (fun a c => a * 10 + (c.toNat - 48)) 0

/-- Days between 1970-01-01 and the civil date y-m-d (proleptic Gregorian),
the standard days-from-civil computation. -/
def daysFromCivil (y m d : Int) : Int :=
  let y2 := if m ≤ 2 then y - 1 else y
  let era := (if 0 ≤ y2 then y2 else y2 - 399) / 400
  let yoe := y2 - era * 400
  let mp := if m > 2 then m - 3 else m + 9
  let doy := (153 * mp + 2) / 5 + d - 1
  let doe := yoe * 365 + yoe / 4 - yoe / 100 + doy
  era * 146097 + doe - 719468

/-- Model of `dateutil.parser.parse` (external library): parses a date/time
string to a `datetime.datetime`. The model covers ISO `YYYY-MM-DD` inputs
(midnight UTC); every other input fails with the library's ParserError.
No claim depends on the parsed value itself. -/
def dateutil_parse (cs : List Char) : Except EvalErr Value :=
  match cs with
  | [y1, y2, y3, y4, h1, m1, m2, h2, d1, d2] =>
    if h1 = '-' ∧ h2 = '-' ∧ [y1, y2, y3, y4, m1, m2, d1, d2].all Char.isDigit then
      let y := (digitsToNat [y1, y2, y3, y4] : Int)
      let m := (digitsToNat [m1, m2] : Int)
      let d := (digitsToNat [d1, d2] : Int)
      if 1 ≤ m ∧ m ≤ 12 ∧ 1 ≤ d ∧ d ≤ 31 then
        Except.ok (Value.VDatetime (86400 * daysFromCivil y m d))
      else Except.error EvalErr.parseErr
    else Except.error EvalErr.parseErr
  | _ => Except.error EvalErr.parseErr

/-- `isinstance(v, str)`. -/
def isinstance_str : Value → Bool
  | Value.VStr _ => true
  | _ => false

/-- `isinstance(v, datetime.time)`. -/
def isinstance_time : Value → Bool
  | Value.VTime _ => true
  | _ => false

/-- `isinstance(v, datetime.date)`: true for `datetime.date` and for
`datetime.datetime`, which is a subclass of `datetime.date` in Python. -/
def isinstance_date : Value → Bool
  | Value.VDate _ => true
  | Value.VDatetime _ => true
  | _ => false

/-- `_unixtime` from template_evaluation.py:
```
def _unixtime(s):
    if isinstance(s, str):
        return parse(s).timestamp()
    if isinstance(s, datetime.time) or isinstance(s, datetime.date):
        return s.timestamp()
    return s
```
The branches are laid out per constructor: `VStr` is the `isinstance(s, str)`
branch, `VTime`/`VDate`/`VDatetime` are the values caught by the second
`if` (a datetime is an instance of `datetime.date`), and everything else is
returned unchanged. -/
def _unixtime : Value → Except EvalErr Value
  | Value.VStr cs => (dateutil_parse cs).bind timestampMethod
  | Value.VTime t => timestampMethod (Value.VTime t)
  | Value.VDate d => timestampMethod (Value.VDate d)
  | Value.VDatetime t => timestampMethod (Value.VDatetime t)
  | v => Except.ok v

/-- Python slice `s[i:]` (integer `i`, possibly negative): a negative start
counts from the end and is clamped at 0. -/
def pySliceFrom (s : List Char) (i : Int) : List Char :=
  if i < 0 then s.drop (((s.length : Int) + i).toNat) else s.drop i.toNat

/-- Python slice `s[0:j]` (integer `j`, possibly negative): a negative stop
counts from the end and is clamped at 0. -/
def pySliceTo (s : List Char) (j : Int) : List Char :=
  if j < 0 then s.take (((s.length : Int) + j).toNat) else s.take j.toNat

/-- `_end` from template_evaluation.py: `return s[-abs(num):]`. -/
def _end (s : List Char) (num : Int) : List Char :=
  pySliceFrom s (-(num.natAbs : Int))

/-- `_start` from template_evaluation.py: `return s[0:num]`. -/
def _start (s : List Char) (num : Int) : List Char :=
  pySliceTo s num

/-- simpleeval's `DEFAULT_NAMES` (external library):
`DEFAULT_NAMES = {"True": True, "False": False, "None": None}`. -/
def DEFAULT_NAMES : Dict :=
  [("True", Value.VBool true), ("False", Value.VBool false), ("None", Value.VNone)]

/-- Tags for the callables stored in the functions registry. The semantics of
the repository's own helpers live in the Lean functions above; the registry
only records which callable each name is bound to, which is all the claims
about registry construction need. -/
inductive FuncVal where
  | rand
  | randint
  | toInt
  | toFloat
  | toStr
  | unixtime
  | datetimeFormat
  | startsWith
  | endsWith
  | startF
  | endF
  | tdDays
  | tdHours
  | tdMinutes
  | tdSeconds
  deriving DecidableEq, Repr

/-- simpleeval's `DEFAULT_FUNCTIONS` (external library):
`{"rand": random, "randint": ..., "int": int, "float": float, "str": str}`. -/
def DEFAULT_FUNCTIONS : List (String × FuncVal) :=
  [("rand", FuncVal.rand), ("randint", FuncVal.randint), ("int", FuncVal.toInt),
   ("float", FuncVal.toFloat), ("str", FuncVal.toStr)]

/-- The `functions.update(...)` call of `eval_expression`: the ten domain
helpers, keyed as in the source. -/
def domain_functions : List (String × FuncVal) :=
  [("unixtime", FuncVal.unixtime), ("datetime_format", FuncVal.datetimeFormat),
   ("starts_with", FuncVal.startsWith), ("ends_with", FuncVal.endsWith),
   ("start", FuncVal.startF), ("end", FuncVal.endF),
   ("timedelta_days", FuncVal.tdDays), ("timedelta_hours", FuncVal.tdHours),
   ("timedelta_minutes", FuncVal.tdMinutes), ("timedelta_seconds", FuncVal.tdSeconds)]

/-- The restricted expression grammar, modelled over the fragment of
simpleeval's grammar that the claims exercise: integer literals and name
references. -/
inductive Expr where
  | num (n : Int)
  | name (id : String)
  deriving DecidableEq, Repr

/-- Leading and trailing spaces are ignored by the expression parser. -/
def stripSpaces (cs : List Char) : List Char :=
  ((cs.dropWhile (· = ' ')).reverse.dropWhile (· = ' ')).reverse

/-- Python identifier characters. -/
def isIdentStart (c : Char) : Bool := c.isAlpha || c = '_'

/-- Python identifier continuation characters. -/
def isIdentChar (c : Char) : Bool := c.isAlphanum || c = '_'

/-- Is the (stripped) token a Python identifier? -/
def isIdent : List Char → Bool
  | [] => false
  | c :: cs => isIdentStart c && cs.all isIdentChar

/-- Model of simpleeval's parse step (`ast.parse` inside the library) over the
modelled fragment: an identifier is a name reference, a digit run is an
integer literal, anything else is a syntax error. -/
def parseExpr (cs : List Char) : Except EvalErr Expr :=
  let t := stripSpaces cs
  if isIdent t then Except.ok (Expr.name (String.mk t))
  else if !t.isEmpty && t.all Char.isDigit then Except.ok (Expr.num (digitsToNat t : Int))
  else Except.error EvalErr.synErr

/-- Model of `simpleeval.simple_eval` (external library) over the modelled
fragment: parse, then evaluate. A name is looked up in `names` (a missing
name raises the library's NameNotDefined); the `functions` table is consulted
only by call expressions, which lie outside the modelled fragment. -/
def simple_eval (s : List Char) (functions : List (String × FuncVal)) (names : Dict) :
    Except EvalErr Value :=
  match parseExpr s with
  | Except.error e => Except.error e
  | Except.ok (Expr.num n) => Except.ok (Value.VNum n)
  | Except.ok (Expr.name id) =>
    match dictLookup names id with
    | some v => Except.ok v
    | none => Except.error EvalErr.nameErr

/-- The wall clock, modelled as the time returned by the k-th
`datetime.datetime.now()` call of the run. -/
abbrev Clock := Nat → Int

/-- The `names_combined` dict built inside `eval_expression`:
`DEFAULT_NAMES.copy()`, then `.update(now=...)`, then — only when `names` is
truthy (not `None` and not empty, Python's `if names:`) — `.update(names)`. -/
def names_combined (nowVal : Value) (names : Option Dict) : Dict :=
  let base := dictUpdate DEFAULT_NAMES [("now", nowVal)]
  match names with
  | some ns => if ns.isEmpty then base else dictUpdate base ns
  | none => base

/-- `eval_expression` from template_evaluation.py. The returned triple is
(result of `simple_eval`, clock-read counter after the call, the caller's
`names` dict as it stands after the call). The function reads the wall clock
exactly once, for the `now` binding. -/
def eval_expression (clock : Clock) (tick : Nat) (s : List Char) (names : Option Dict) :
    Except EvalErr Value × Nat × Option Dict :=
  let functions := dictUpdate DEFAULT_FUNCTIONS domain_functions
  let nowVal := Value.VDatetime (clock tick)
  (simple_eval s functions (names_combined nowVal names), tick + 1, names)

/-- Python `str(v)` for the modelled values. `str` of a datetime is rendered
from the model's epoch field (abbreviated relative to CPython's calendar
rendering, but injective in the underlying time, which is all the claims
use). -/
def pyStr : Value → List Char
  | Value.VNum n => (toString n).data
  | Value.VStr s => s
  | Value.VBool true => ('T' :: ('r' :: ('u' :: ('e' :: []))))
  | Value.VBool false => "False".data
  | Value.VNone => "None".data
  | Value.VDate d => "date(".data ++ (toString d).data ++ (')' :: [])
  | Value.VTime t => "time(".data ++ (toString t).data ++ (')' :: [])
  | Value.VDatetime t => "datetime(".data ++ (toString t).data ++ (')' :: [])
  | Value.VTimedelta t => "timedelta(".data ++ (toString t).data ++ (')' :: [])

/-- A piece of a split template: a literal character, or the body of a
matched `\x7b\x7b ... \x7d\x7d` region. -/
inductive Piece where
  | lit (c : Char)
  | region (body : List Char)
  deriving DecidableEq, Repr

/-- The body scan of the pattern `\x7b\x7b([^\x7d]*)\x7d\x7d`, applied to the characters
after a `\x7b\x7b`: `[^\x7d]*` consumes the maximal run of non-`\x7d` characters, after
which `\x7d\x7d` must follow literally. Returns the body length when the pattern
matches here, `none` otherwise (greedy matching with no useful backtracking:
a shorter body would put a non-`\x7d` character under `\x7d`). -/
def scanBody : List Char → Option Nat
  | [] => none
  | c :: rest =>
    if c = '}' then
      match rest with
      | c2 :: _ => if c2 = '}' then some 0 else none
      | [] => none
    else (scanBody rest).map (· + 1)

/-- The scan loop of `re.sub`: try to match the pattern at the current
position; on a match emit the region and continue after it, otherwise emit
one literal character and retry at the next position. `fuel` bounds the
recursion and is always instantiated with the length of the list, which
suffices (every step consumes at least one character). -/
def splitTemplateGo : Nat → List Char → List Piece
  | 0, _ => []
  | _ + 1, [] => []
  | fuel + 1, c1 :: rest1 =>
    if c1 = '{' then
      match rest1 with
      | c2 :: rest2 =>
        if c2 = '{' then
          match scanBody rest2 with
          | some k => Piece.region (rest2.take k) :: splitTemplateGo fuel (rest2.drop (k + 2))
          | none => Piece.lit c1 :: splitTemplateGo fuel rest1
        else Piece.lit c1 :: splitTemplateGo fuel rest1
      | [] => [Piece.lit c1]
    else Piece.lit c1 :: splitTemplateGo fuel rest1

/-- Split a template into literal characters and matched region bodies,
exactly as the `re.sub` scan of `eval_template` does. -/
def splitTemplate (l : List Char) : List Piece :=
  splitTemplateGo l.length l

/-- Reassemble split pieces into the original template text (a region body
`b` stands for the matched text `\x7b\x7b b \x7d\x7d`). -/
def reassemble : List Piece → List Char
  | [] => []
  | Piece.lit c :: ps => c :: reassemble ps
  | Piece.region b :: ps => '{' :: '{' :: (b ++ '}' :: '}' :: reassemble ps)

/-- The bodies of the pieces, in order. -/
def pieceBodies (ps : List Piece) : List (List Char) :=
  ps.filterMap fun p =>
    match p with
    | Piece.region b => some b
    | Piece.lit _ => none

/-- The region bodies of a template, in left-to-right match order. -/
def regions (l : List Char) : List (List Char) :=
  pieceBodies (splitTemplate l)

/-- The error of the first failing evaluation among the bodies, if any. -/
def firstError (f : List Char → Except EvalErr Value) : List (List Char) → Option EvalErr
  | [] => none
  | b :: bs =>
    match f b with
    | Except.error e => some e
    | Except.ok _ => firstError f bs

/-- The substitution loop of `re.sub(..., lambda m: str(eval_expression(m.group(1), names)), s)`:
literal text is copied, each region body is evaluated (reading the clock) and
replaced by the stringified value; the first raised error aborts the whole
call with that error, producing no output string. The clock-read counter and
the caller's `names` dict are threaded through the calls, as the same dict
object is passed to every `eval_expression` invocation. -/
def renderPieces (clock : Clock) :
    List Piece → Nat → Option Dict → Except EvalErr (List Char) × Nat × Option Dict
  | [], tick, names => (Except.ok [], tick, names)
  | Piece.lit c :: ps, tick, names =>
    match renderPieces clock ps tick names with
    | (r, t2, ns2) => (r.map (fun out => c :: out), t2, ns2)
  | Piece.region b :: ps, tick, names =>
    match eval_expression clock tick b names with
    | (Except.ok v, t2, ns2) =>
      (match renderPieces clock ps t2 ns2 with
       | (Except.ok out, t3, ns3) => (Except.ok (pyStr v ++ out), t3, ns3)
       | (Except.error e, t3, ns3) => (Except.error e, t3, ns3))
    | (Except.error e, t2, ns2) => (Except.error e, t2, ns2)

/-- `eval_template` from template_evaluation.py:
`re.sub` over the template with the region-substituting lambda. The returned
triple is (rendered string or first error, clock-read counter after the call,
the caller's `names` dict after the call). -/
def eval_template (clock : Clock) (tick : Nat) (s : List Char) (names : Option Dict) :
    Except EvalErr (List Char) × Nat × Option Dict :=
  renderPieces clock (splitTemplate s) tick names

/-! ### Dictionary lemmas -/

theorem dictLookup_append_of_some {α : Type} {d1 d2 : List (String × α)} {k : String}
    {v : α} (h : dictLookup d1 k = some v) : dictLookup (d1 ++ d2) k = some v := by
  induction d1 with
  | nil => simp [dictLookup] at h
  | cons p rest ih =>
    obtain ⟨k2, v2⟩ := p
    by_cases hk : k2 = k
    · simp [dictLookup, hk] at h ⊢
      exact h
    · simp [dictLookup, hk] at h ⊢
      exact ih h

theorem dictLookup_now_isSome (pre post : Dict) (k : String) (nv nv2 : Value) :
    (dictLookup (pre ++ ("now", nv) :: post) k).isSome =
      (dictLookup (pre ++ ("now", nv2) :: post) k).isSome := by
  induction pre with
  | nil => by_cases hk : "now" = k <;> simp [dictLookup, hk]
  | cons p rest ih =>
    obtain ⟨k2, v2⟩ := p
    by_cases hk : k2 = k <;> simp [dictLookup, hk, ih]

theorem names_combined_shape (ns : Option Dict) :
    ∃ pre, ∀ nv, names_combined nv ns = pre ++ ("now", nv) :: DEFAULT_NAMES := by
  match ns with
  | none => exact ⟨[], fun _ => rfl⟩
  | some l =>
    by_cases hl : l.isEmpty
    · exact ⟨[], fun nv => by simp [names_combined, hl, dictUpdate]⟩
    · exact ⟨l, fun nv => by simp [names_combined, hl, dictUpdate]⟩

/-! ### The scan for the pattern body `[^\x7d]*\x7d\x7d` -/

theorem scanBody_le_length {l : List Char} {k : Nat} (h : scanBody l = some k) :
    k + 2 ≤ l.length := by
  induction l generalizing k with
  | nil => simp [scanBody] at h
  | cons c rest ih =>
    by_cases hc : c = '}'
    · match rest with
      | [] => simp [scanBody, hc] at h
      | c2 :: rest2 =>
        by_cases hc2 : c2 = '}' <;> simp [scanBody, hc, hc2] at h
        subst h
        simp only [List.length_cons]
        omega
    · simp [scanBody, hc] at h
      obtain ⟨k2, hk2, rfl⟩ := h
      have := ih hk2
      simp only [List.length_cons]
      omega

theorem scanBody_decomp {l : List Char} {k : Nat} (h : scanBody l = some k) :
    l = l.take k ++ '}' :: '}' :: l.drop (k + 2) := by
  induction l generalizing k with
  | nil => simp [scanBody] at h
  | cons c rest ih =>
    by_cases hc : c = '}'
    · match rest with
      | [] => simp [scanBody, hc] at h
      | c2 :: rest2 =>
        by_cases hc2 : c2 = '}' <;> simp [scanBody, hc, hc2] at h
        subst h
        simp [hc, hc2]
    · simp [scanBody, hc] at h
      obtain ⟨k2, hk2, rfl⟩ := h
      have hrest := ih hk2
      have ht : (c :: rest).take (k2 + 1) = c :: rest.take k2 := rfl
      have hd : (c :: rest).drop (k2 + 1 + 2) = rest.drop (k2 + 2) := rfl
      rw [ht, hd, List.cons_append]
      exact congrArg (c :: ·) hrest

theorem scanBody_take_free {l : List Char} {k : Nat} (h : scanBody l = some k) :
    '}' ∉ l.take k := by
  induction l generalizing k with
  | nil => simp [scanBody] at h
  | cons c rest ih =>
    by_cases hc : c = '}'
    · match rest with
      | [] => simp [scanBody, hc] at h
      | c2 :: rest2 =>
        by_cases hc2 : c2 = '}' <;> simp [scanBody, hc, hc2] at h
        subst h
        simp
    · simp [scanBody, hc] at h
      obtain ⟨k2, hk2, rfl⟩ := h
      simp [List.take_succ_cons]
      exact ⟨fun he => hc he.symm, ih hk2⟩

theorem scanBody_of_decomp {b r : List Char} (hb : '}' ∉ b) :
    scanBody (b ++ '}' :: '}' :: r) = some b.length := by
  induction b with
  | nil => simp [scanBody]
  | cons c cs ih =>
    have hc : c ≠ '}' := fun he => hb (he ▸ List.mem_cons_self c cs)
    have hcs : '}' ∉ cs := fun hm => hb (List.mem_cons_of_mem c hm)
    simp [scanBody, hc, ih hcs]

/-! ### The `re.sub` scan -/

theorem reassemble_splitTemplateGo :
    ∀ (fuel : Nat) (l : List Char), l.length ≤ fuel →
      reassemble (splitTemplateGo fuel l) = l := by
  intro fuel
  induction fuel with
  | zero =>
    intro l hl
    have : l = [] := List.eq_nil_of_length_eq_zero (Nat.le_zero.mp hl)
    subst this
    rfl
  | succ fuel ih =>
    intro l hl
    match l with
    | [] => rfl
    | c1 :: rest1 =>
      by_cases h1 : c1 = '{'
      · subst h1
        match rest1 with
        | [] => simp [splitTemplateGo, reassemble]
        | c2 :: rest2 =>
          by_cases h2 : c2 = '{'
          · subst h2
            match hs : scanBody rest2 with
            | some k =>
              have hdec := scanBody_decomp hs
              have hrec : (rest2.drop (k + 2)).length ≤ fuel := by
                simp only [List.length_drop]
                simp only [List.length_cons] at hl
                omega
              simp only [splitTemplateGo, hs, reassemble, if_pos rfl]
              rw [ih _ hrec]
              exact congrArg (fun t => '{' :: '{' :: t) hdec.symm
            | none =>
              have hrec : ('{' :: rest2).length ≤ fuel := by
                simp only [List.length_cons] at hl ⊢
                omega
              simp only [splitTemplateGo, hs, reassemble, if_pos rfl]
              rw [ih _ hrec]
          · have hrec : (c2 :: rest2).length ≤ fuel := by
              simp only [List.length_cons] at hl ⊢
              omega
            simp only [splitTemplateGo, h2, reassemble, if_pos rfl, if_neg h2]
            rw [ih _ hrec]
      · have hrec : rest1.length ≤ fuel := by
          simp only [List.length_cons] at hl
          omega
        match rest1 with
        | [] =>
          simp only [splitTemplateGo, reassemble, if_neg h1]
          rw [ih _ hrec]
        | c2 :: rest2 =>
          simp only [splitTemplateGo, h1, reassemble, if_neg h1]
          rw [ih _ hrec]

theorem reassemble_splitTemplate (l : List Char) : reassemble (splitTemplate l) = l :=
  reassemble_splitTemplateGo l.length l le_rfl

/-! ### Unfolding lemmas for the evaluator -/

theorem eval_expression_eq (clock : Clock) (t : Nat) (s : List Char) (ns : Option Dict) :
    eval_expression clock t s ns = ((eval_expression clock t s ns).1, t + 1, ns) := rfl

theorem eval_expression_fst (clock : Clock) (t : Nat) (s : List Char) (ns : Option Dict) :
    (eval_expression clock t s ns).1 =
      simple_eval s (dictUpdate DEFAULT_FUNCTIONS domain_functions)
        (names_combined (Value.VDatetime (clock t)) ns) := rfl

theorem renderPieces_lit (clock : Clock) (c : Char) (ps : List Piece) (t : Nat)
    (ns : Option Dict) :
    renderPieces clock (Piece.lit c :: ps) t ns =
      ((renderPieces clock ps t ns).1.map (fun out => c :: out),
        (renderPieces clock ps t ns).2.1, (renderPieces clock ps t ns).2.2) := rfl

theorem renderPieces_region_error {clock : Clock} {b : List Char} {t : Nat}
    {ns : Option Dict} {e : EvalErr} (ps : List Piece)
    (hE : (eval_expression clock t b ns).1 = Except.error e) :
    renderPieces clock (Piece.region b :: ps) t ns = (Except.error e, t + 1, ns) := by
  have h : eval_expression clock t b ns = (Except.error e, t + 1, ns) := by
    rw [eval_expression_eq, hE]
  simp only [renderPieces, h]

theorem renderPieces_region_ok_ok {clock : Clock} {b : List Char} {ps : List Piece}
    {t : Nat} {ns : Option Dict} {v : Value} {out : List Char} {t3 : Nat}
    {ns3 : Option Dict} (hE : (eval_expression clock t b ns).1 = Except.ok v)
    (hr : renderPieces clock ps (t + 1) ns = (Except.ok out, t3, ns3)) :
    renderPieces clock (Piece.region b :: ps) t ns =
      (Except.ok (pyStr v ++ out), t3, ns3) := by
  have h : eval_expression clock t b ns = (Except.ok v, t + 1, ns) := by
    rw [eval_expression_eq, hE]
  simp only [renderPieces, h, hr]

theorem renderPieces_region_ok_error {clock : Clock} {b : List Char} {ps : List Piece}
    {t : Nat} {ns : Option Dict} {v : Value} {e : EvalErr} {t3 : Nat}
    {ns3 : Option Dict} (hE : (eval_expression clock t b ns).1 = Except.ok v)
    (hr : renderPieces clock ps (t + 1) ns = (Except.error e, t3, ns3)) :
    renderPieces clock (Piece.region b :: ps) t ns = (Except.error e, t3, ns3) := by
  have h : eval_expression clock t b ns = (Except.ok v, t + 1, ns) := by
    rw [eval_expression_eq, hE]
  simp only [renderPieces, h, hr]

/-- The success or failure of one expression evaluation, and the raised error
kind, do not depend on the clock reading: only the value bound to `now`
varies with the tick, and name resolution is insensitive to the bound
values. -/
theorem eval_expression_error_iff (clock : Clock) (t t2 : Nat) (s : List Char)
    (ns : Option Dict) (e : EvalErr) :
    (eval_expression clock t s ns).1 = Except.error e ↔
      (eval_expression clock t2 s ns).1 = Except.error e := by
  rw [eval_expression_fst, eval_expression_fst]
  obtain ⟨pre, hpre⟩ := names_combined_shape ns
  rw [hpre, hpre]
  cases hp : parseExpr s with
  | error e0 => simp [simple_eval, hp]
  | ok ex =>
    cases ex with
    | num n => simp [simple_eval, hp]
    | name id =>
      simp only [simple_eval, hp]
      have hsome := dictLookup_now_isSome pre DEFAULT_NAMES id
        (Value.VDatetime (clock t)) (Value.VDatetime (clock t2))
      cases h1 : dictLookup (pre ++ ("now", Value.VDatetime (clock t)) :: DEFAULT_NAMES) id with
      | some v1 =>
        cases h2 : dictLookup (pre ++ ("now", Value.VDatetime (clock t2)) :: DEFAULT_NAMES) id with
        | some v2 => simp
        | none => rw [h1, h2] at hsome; simp at hsome
      | none =>
        cases h2 : dictLookup (pre ++ ("now", Value.VDatetime (clock t2)) :: DEFAULT_NAMES) id with
        | some v2 => rw [h1, h2] at hsome; simp at hsome
        | none => exact Iff.rfl

/-! ### Frame, clock-read count, and error propagation of the render loop -/

theorem renderPieces_names (clock : Clock) :
    ∀ (ps : List Piece) (t : Nat) (ns : Option Dict),
      (renderPieces clock ps t ns).2.2 = ns := by
  intro ps
  induction ps with
  | nil => intro t ns; rfl
  | cons p ps ih =>
    intro t ns
    match p with
    | Piece.lit c => rw [renderPieces_lit]; exact ih t ns
    | Piece.region b =>
      cases hE : (eval_expression clock t b ns).1 with
      | error e => rw [renderPieces_region_error ps hE]
      | ok v =>
        have hrec := ih (t + 1) ns
        match hr : renderPieces clock ps (t + 1) ns with
        | (Except.ok out, t3, ns3) =>
          rw [renderPieces_region_ok_ok hE hr]
          rw [hr] at hrec
          exact hrec
        | (Except.error e, t3, ns3) =>
          rw [renderPieces_region_ok_error hE hr]
          rw [hr] at hrec
          exact hrec

theorem renderPieces_tick (clock : Clock) :
    ∀ (ps : List Piece) (t : Nat) (ns : Option Dict),
      (renderPieces clock ps t ns).1.isOk = true →
      (renderPieces clock ps t ns).2.1 = t + (pieceBodies ps).length := by
  intro ps
  induction ps with
  | nil => intro t ns _; simp [renderPieces, pieceBodies]
  | cons p ps ih =>
    intro t ns hok
    match p with
    | Piece.lit c =>
      rw [renderPieces_lit] at hok ⊢
      have hl : pieceBodies (Piece.lit c :: ps) = pieceBodies ps := rfl
      rw [hl]
      have hok2 : (renderPieces clock ps t ns).1.isOk = true := by
        cases h : (renderPieces clock ps t ns).1 with
        | ok a => simp [Except.isOk, Except.toBool]
        | error a =>
          rw [h] at hok
          simp [Except.isOk, Except.toBool, Except.map] at hok
      exact ih t ns hok2
    | Piece.region b =>
      cases hE : (eval_expression clock t b ns).1 with
      | error e =>
        rw [renderPieces_region_error ps hE] at hok
        simp [Except.isOk, Except.toBool] at hok
      | ok v =>
        match hr : renderPieces clock ps (t + 1) ns with
        | (Except.ok out, t3, ns3) =>
          rw [renderPieces_region_ok_ok hE hr] at hok ⊢
          have hrec := ih (t + 1) ns
          rw [hr] at hrec
          have hl : pieceBodies (Piece.region b :: ps) = b :: pieceBodies ps := rfl
          rw [hl, List.length_cons]
          have ht3 := hrec (by simp [Except.isOk, Except.toBool])
          simp only at ht3 ⊢
          omega
        | (Except.error e, t3, ns3) =>
          rw [renderPieces_region_ok_error hE hr] at hok
          simp [Except.isOk, Except.toBool] at hok

theorem renderPieces_error_iff (clock : Clock) :
    ∀ (ps : List Piece) (t : Nat) (ns : Option Dict) (e : EvalErr),
      (renderPieces clock ps t ns).1 = Except.error e ↔
        firstError (fun b => (eval_expression clock 0 b ns).1) (pieceBodies ps) = some e := by
  intro ps
  induction ps with
  | nil => intro t ns e; simp [renderPieces, pieceBodies, firstError]
  | cons p ps ih =>
    intro t ns e
    match p with
    | Piece.lit c =>
      rw [renderPieces_lit]
      have hl : pieceBodies (Piece.lit c :: ps) = pieceBodies ps := rfl
      rw [hl, ← ih t ns e]
      cases h : (renderPieces clock ps t ns).1 <;> simp [h, Except.map]
    | Piece.region b =>
      have hl : pieceBodies (Piece.region b :: ps) = b :: pieceBodies ps := rfl
      rw [hl]
      cases hE : (eval_expression clock t b ns).1 with
      | error e0 =>
        rw [renderPieces_region_error ps hE]
        have h0 : (eval_expression clock 0 b ns).1 = Except.error e0 :=
          (eval_expression_error_iff clock t 0 b ns e0).mp hE
        simp only [firstError, h0]
        constructor
        · intro h; injection h with h; exact congrArg some h
        · intro h; injection h with h; exact congrArg Except.error h
      | ok v =>
        have h0 : ∀ e1, ¬ (eval_expression clock 0 b ns).1 = Except.error e1 := by
          intro e1 hc
          have := (eval_expression_error_iff clock 0 t b ns e1).mp hc
          rw [hE] at this
          exact Except.noConfusion this
        cases h0v : (eval_expression clock 0 b ns).1 with
        | error e1 => exact absurd h0v (h0 e1)
        | ok v1 =>
          simp only [firstError, h0v]
          rw [← ih (t + 1) ns e]
          match hr : renderPieces clock ps (t + 1) ns with
          | (Except.ok out, t3, ns3) =>
            rw [renderPieces_region_ok_ok hE hr]
            simp
          | (Except.error e1, t3, ns3) =>
            rw [renderPieces_region_ok_error hE hr]

theorem renderPieces_no_regions (clock : Clock) :
    ∀ (ps : List Piece) (t : Nat) (ns : Option Dict), pieceBodies ps = [] →
      renderPieces clock ps t ns = (Except.ok (reassemble ps), t, ns) := by
  intro ps
  induction ps with
  | nil => intro t ns _; rfl
  | cons p ps ih =>
    intro t ns hb
    match p with
    | Piece.lit c =>
      simp only [pieceBodies, List.filterMap_cons] at hb
      rw [renderPieces_lit, ih t ns hb]
      rfl
    | Piece.region b =>
      simp [pieceBodies, List.filterMap_cons] at hb

theorem firstError_of_mem {f : List Char → Except EvalErr Value} :
    ∀ (bs : List (List Char)) (b : List Char) (e : EvalErr),
      b ∈ bs → f b = Except.error e → ∃ e2, firstError f bs = some e2 := by
  intro bs
  induction bs with
  | nil => intro b e h _; simp at h
  | cons b0 bs ih =>
    intro b e hmem hfe
    cases hf : f b0 with
    | error e0 => exact ⟨e0, by simp [firstError, hf]⟩
    | ok v =>
      simp only [firstError, hf]
      rcases List.mem_cons.mp hmem with rfl | hmem2
      · rw [hf] at hfe; exact Except.noConfusion hfe
      · exact ih b e hmem2 hfe

theorem firstError_some_mem {f : List Char → Except EvalErr Value} :
    ∀ (bs : List (List Char)) (e : EvalErr),
      firstError f bs = some e → ∃ b ∈ bs, f b = Except.error e := by
  intro bs
  induction bs with
  | nil => intro e h; simp [firstError] at h
  | cons b0 bs ih =>
    intro e h
    cases hf : f b0 with
    | error e0 =>
      simp only [firstError, hf] at h
      injection h with h
      exact ⟨b0, List.mem_cons_self b0 bs, h ▸ hf⟩
    | ok v =>
      simp only [firstError, hf] at h
      obtain ⟨b, hb, hfb⟩ := ih e h
      exact ⟨b, List.mem_cons_of_mem b0 hb, hfb⟩

/-! ### Claim theorems -/

/-- C2: the claim says `unixtime` succeeds on date and time-of-day values and
converts them to epoch seconds. The code instead raises `AttributeError`
there: `datetime.date` and `datetime.time` have no `timestamp()` method (only
`datetime.datetime`, a subclass of `datetime.date`, does), so the branch that
the `isinstance` tests explicitly select can never succeed on a pure date or
time value. Evaluating the code at `datetime.date(2024, 1, 1)` (proleptic
ordinal 738886) and at `datetime.time(12, 0)` (43200 seconds after
midnight) raises `AttributeError`, while a full `datetime` converts fine. -/
theorem unixtime_date_time_attr_error :
    _unixtime (Value.VDate 738886) = Except.error EvalErr.attrErr ∧
      _unixtime (Value.VTime 43200) = Except.error EvalErr.attrErr ∧
      _unixtime (Value.VDatetime 1704067200) = Except.ok (Value.VNum 1704067200) :=
  ⟨rfl, rfl, rfl⟩

/-- C3 (counterexample): the claim `len(end(s, n)) == min(abs(n), len(s))`
fails at `n = 0`: Python's `-abs(0)` is `0`, so `s[-abs(0):] = s[0:] = s`,
and `end("ab", 0) = "ab"` has length 2, not `min(0, 2) = 0`. -/
theorem end_zero_counterexample :
    _end ['a', 'b'] 0 = ['a', 'b'] ∧
      ¬ (_end ['a', 'b'] 0).length = min ((0 : Int).natAbs) (['a', 'b'] : List Char).length := by
  constructor
  · rfl
  · decide

/-- C3 (amended): for every string `s` and integer `n ≠ 0`, `end(s, n)`
returns the last `abs(n)` characters of `s` and
`len(end(s, n)) = min(abs(n), len(s))`; for `n = 0`, `end(s, 0)` returns all
of `s` (because `-abs(0) = 0` makes the slice `s[0:]`). -/
theorem end_last_chars (s : List Char) (n : Int) :
    (n ≠ 0 → _end s n = s.drop (s.length - n.natAbs) ∧
      (_end s n).length = min n.natAbs s.length) ∧
    _end s 0 = s := by
  constructor
  · intro hn
    have hk : 1 ≤ n.natAbs := Int.natAbs_pos.mpr hn
    have hdrop : _end s n = s.drop (s.length - n.natAbs) := by
      unfold _end pySliceFrom
      rw [if_pos (by omega)]
      congr 1
      omega
    refine ⟨hdrop, ?_⟩
    rw [hdrop, List.length_drop]
    omega
  · simp [_end, pySliceFrom]

/-- C3 witness: the amended statement evaluated at `s = "ab"`, `n = 3`. -/
theorem end_last_chars_witness :
    _end ['a', 'b'] 3 = (['a', 'b'] : List Char).drop ((['a', 'b'] : List Char).length - (3 : Int).natAbs) ∧
      (_end ['a', 'b'] 3).length = min ((3 : Int).natAbs) (['a', 'b'] : List Char).length :=
  (end_last_chars ['a', 'b'] 3).1 (by decide)

/-- C7: `unixtime` on a value that is not a string, not a `datetime.time`,
and not a `datetime.date` (hence also not a `datetime.datetime`) is the
identity: the value is returned unchanged. -/
theorem unixtime_pass_through (v : Value) (h1 : isinstance_str v = false)
    (h2 : isinstance_time v = false) (h3 : isinstance_date v = false) :
    _unixtime v = Except.ok v := by
  cases v <;> simp_all [isinstance_str, isinstance_time, isinstance_date, _unixtime]

/-- C7 witness: `unixtime(5) == 5`. -/
theorem unixtime_pass_through_witness :
    _unixtime (Value.VNum 5) = Except.ok (Value.VNum 5) :=
  unixtime_pass_through (Value.VNum 5) rfl rfl rfl

/-- C10: `start(s, n)` for negative `n` is `s[0:n]` under Python slice
semantics: `s` with its last `abs(n)` characters removed (not a failure, and
not the first `n` characters); its length is `len(s) - abs(n)` (truncated at
0), so it can be shorter than `s` yet non-empty when `abs(n) < len(s)`. -/
theorem start_negative_slice (s : List Char) (n : Int) (h : n < 0) :
    _start s n = s.take (s.length - n.natAbs) ∧
      (_start s n).length = s.length - n.natAbs := by
  have h1 : _start s n = s.take (s.length - n.natAbs) := by
    unfold _start pySliceTo
    rw [if_pos h]
    congr 1
    omega
  refine ⟨h1, ?_⟩
  rw [h1, List.length_take]
  omega

/-- C10 witness: `start("abc", -1) == "ab"`, shorter than the input yet
non-empty. -/
theorem start_negative_slice_witness :
    _start ['a', 'b', 'c'] (-1) =
        (['a', 'b', 'c'] : List Char).take ((['a', 'b', 'c'] : List Char).length - ((-1 : Int)).natAbs) ∧
      (_start ['a', 'b', 'c'] (-1)).length =
        (['a', 'b', 'c'] : List Char).length - ((-1 : Int)).natAbs :=
  start_negative_slice ['a', 'b', 'c'] (-1) (by decide)

/-- C4 (counterexample): the claim says an inner single `\x7d` is allowed in a
region body and that a region is recognized whenever a `\x7b\x7b` is followed by a
later `\x7d\x7d`. In the template `\x7b\x7ba\x7db\x7d\x7d` the first `\x7b\x7b` is followed by a later
`\x7d\x7d` and the shortest span not containing `\x7d\x7d` is `a\x7db`, yet the code finds no
region at all (the regex body `[^\x7d]*` admits no `\x7d`), and the template is
passed through unchanged. -/
theorem single_brace_region_counterexample :
    regions ['{', '{', 'a', '}', 'b', '}', '}'] = [] ∧
      ¬ ['a', '}', 'b'] ∈ regions ['{', '{', 'a', '}', 'b', '}', '}'] ∧
      (eval_template (fun _ => 0) 0 ['{', '{', 'a', '}', 'b', '}', '}'] none).1 =
        Except.ok ['{', '{', 'a', '}', 'b', '}', '}'] := by
  refine ⟨by decide, by decide, rfl⟩

/-- C4 (amended): `eval_template` recognizes a region exactly when a `\x7b\x7b` is
followed by a (possibly empty) run of characters containing no `\x7d` at all
and then immediately `\x7d\x7d`; a single `\x7d` anywhere in the candidate body
prevents recognition. Regions are matched left to right without overlapping:
reassembling the scanned pieces (each body `b` standing for `\x7b\x7bb\x7d\x7d`)
reproduces the template. -/
theorem region_recognition :
    (∀ (l : List Char) (k : Nat), scanBody l = some k ↔
      ∃ b r, l = b ++ '}' :: '}' :: r ∧ b.length = k ∧ '}' ∉ b) ∧
    ∀ s : List Char, reassemble (splitTemplate s) = s := by
  constructor
  · intro l k
    constructor
    · intro h
      refine ⟨l.take k, l.drop (k + 2), scanBody_decomp h, ?_, scanBody_take_free h⟩
      have := scanBody_le_length h
      simp only [List.length_take]
      omega
    · rintro ⟨b, r, rfl, rfl, hb⟩
      exact scanBody_of_decomp hb
  · exact reassemble_splitTemplate

/-- C4 witness: the amended characterization evaluated at the body scan
`a\x7d\x7d` (body `a`, length 1) and the template `\x7b\x7ba\x7d\x7d`. -/
theorem region_recognition_witness :
    (scanBody ['a', '}', '}'] = some 1 ↔
      ∃ b r, ['a', '}', '}'] = b ++ '}' :: '}' :: r ∧ b.length = 1 ∧ '}' ∉ b) ∧
      reassemble (splitTemplate ['{', '{', 'a', '}', '}']) = ['{', '{', 'a', '}', '}'] :=
  ⟨region_recognition.1 ['a', '}', '}'] 1, region_recognition.2 ['{', '{', 'a', '}', '}']⟩

/-- C6: a template with zero `\x7b\x7b ... \x7d\x7d` regions renders to itself: the
output is the input unchanged, the clock-read counter does not move (no
expression evaluation is invoked, hence no `now()` read), and the caller's
names are untouched. -/
theorem no_region_passthrough (clock : Clock) (t : Nat) (s : List Char) (ns : Option Dict)
    (h : regions s = []) : eval_template clock t s ns = (Except.ok s, t, ns) := by
  unfold eval_template
  have h2 : pieceBodies (splitTemplate s) = [] := h
  rw [renderPieces_no_regions clock (splitTemplate s) t ns h2, reassemble_splitTemplate]

/-- C6 witness: the region-free template `"hi"` with a caller overlay. -/
theorem no_region_passthrough_witness :
    eval_template (fun _ => 0) 7 ['h', 'i'] (some [("x", Value.VNum 1)]) =
      (Except.ok ['h', 'i'], 7, some [("x", Value.VNum 1)]) :=
  no_region_passthrough (fun _ => 0) 7 ['h', 'i'] (some [("x", Value.VNum 1)]) (by decide)

/-- C5: `eval_template` fails exactly when the evaluation of some embedded
expression fails, and then it fails with the error kind raised by the first
failing embedded evaluation in scan order and produces no output string (the
error value carries no partially substituted text). Whether an embedded
evaluation fails does not depend on the clock reading, so the embedded
evaluations are canonically taken at read index 0. -/
theorem template_error_propagation (clock : Clock) (t : Nat) (s : List Char)
    (ns : Option Dict) :
    (∀ e, (eval_template clock t s ns).1 = Except.error e ↔
      firstError (fun b => (eval_expression clock 0 b ns).1) (regions s) = some e) ∧
    ((∃ b ∈ regions s, ∃ e, (eval_expression clock 0 b ns).1 = Except.error e) →
      ∃ e, (eval_template clock t s ns).1 = Except.error e ∧
        ∃ b ∈ regions s, (eval_expression clock 0 b ns).1 = Except.error e) := by
  constructor
  · intro e
    exact renderPieces_error_iff clock (splitTemplate s) t ns e
  · rintro ⟨b, hmem, e, hfe⟩
    obtain ⟨e2, he2⟩ :=
      @firstError_of_mem (fun b2 => (eval_expression clock 0 b2 ns).1) (regions s) b e hmem hfe
    exact ⟨e2, (renderPieces_error_iff clock (splitTemplate s) t ns e2).mpr he2,
      @firstError_some_mem (fun b2 => (eval_expression clock 0 b2 ns).1) (regions s) e2 he2⟩

/-- C5 witness: rendering `"\x7b\x7bx\x7d\x7d"` with no overlay fails, with the error
(NameNotDefined) raised by the embedded evaluation of `x`. -/
theorem template_error_propagation_witness :
    ∃ e, (eval_template (fun _ => 0) 0 ['{', '{', 'x', '}', '}'] none).1 = Except.error e ∧
      ∃ b ∈ regions ['{', '{', 'x', '}', '}'],
        (eval_expression (fun _ => 0) 0 b none).1 = Except.error e :=
  (template_error_propagation (fun _ => 0) 0 ['{', '{', 'x', '}', '}'] none).2
    ⟨['x'], by decide, EvalErr.nameErr, rfl⟩

/-- C1 (counterexample): the claim says every embedded expression of one
template pass sees the same `now`. Rendering `"\x7b\x7bnow\x7d\x7d\x7b\x7bnow\x7d\x7d"` under a
clock that advances between reads substitutes two different times: the first
region sees the clock at read 0 and the second the clock at read 1. -/
theorem now_fixed_once_counterexample :
    (eval_template (fun k => (k : Int)) 0
        ['{', '{', 'n', 'o', 'w', '}', '}', '{', '{', 'n', 'o', 'w', '}', '}'] none).1 =
      Except.ok (pyStr (Value.VDatetime 0) ++ pyStr (Value.VDatetime 1)) ∧
      pyStr (Value.VDatetime 0) ≠ pyStr (Value.VDatetime 1) :=
  ⟨rfl, by decide⟩

/-- C1 (amended): `now` is bound anew at each embedded expression's
evaluation: every `eval_expression` call reads the wall clock exactly once,
so a successful render of a template advances the clock-read counter by the
number of regions (one read per region), and an embedded expression `now`
evaluated at read index `t2` sees the clock at `t2` — not a single value
fixed at the top-level entry of the render. -/
theorem now_read_per_region (clock : Clock) (t : Nat) (s : List Char) (ns : Option Dict) :
    ((eval_template clock t s ns).1.isOk = true →
      (eval_template clock t s ns).2.1 = t + (regions s).length) ∧
    ∀ t2 : Nat, (eval_expression clock t2 ['n', 'o', 'w'] none).1 =
      Except.ok (Value.VDatetime (clock t2)) := by
  constructor
  · exact renderPieces_tick clock (splitTemplate s) t ns
  · intro t2
    rfl

/-- C1 witness: rendering one `now` region advances the read counter from 0
to 1, and `now` at read index 5 sees the clock at 5. -/
theorem now_read_per_region_witness :
    (eval_template (fun k => (k : Int)) 0 ['{', '{', 'n', 'o', 'w', '}', '}'] none).2.1 =
        0 + (regions ['{', '{', 'n', 'o', 'w', '}', '}']).length ∧
      (eval_expression (fun k => (k : Int)) 5 ['n', 'o', 'w'] none).1 =
        Except.ok (Value.VDatetime ((5 : Nat) : Int)) :=
  ⟨(now_read_per_region (fun k => (k : Int)) 0 ['{', '{', 'n', 'o', 'w', '}', '}'] none).1
      (by decide),
    (now_read_per_region (fun k => (k : Int)) 0 ['{', '{', 'n', 'o', 'w', '}', '}'] none).2 5⟩

/-- C8: the registry is built by merging, in order, the base safe name set
(simpleeval's defaults), then the domain extension `now`, then the
caller-supplied overlay, each later layer overriding the earlier on name
collision; consequently every name bound in the caller's overlay — including
`now` itself — resolves to the caller's binding during expression
evaluation. -/
theorem registry_caller_overrides (ns : Dict) (k : String) (v : Value)
    (h : dictLookup ns k = some v) :
    (∀ nv, names_combined nv (some ns) =
        dictUpdate (dictUpdate DEFAULT_NAMES [("now", nv)]) ns ∧
      dictLookup (names_combined nv (some ns)) k = some v) ∧
    ∀ (clock : Clock) (t : Nat), parseExpr k.data = Except.ok (Expr.name k) →
      (eval_expression clock t k.data (some ns)).1 = Except.ok v := by
  have hne : ns.isEmpty = false := by
    cases ns with
    | nil => simp [dictLookup] at h
    | cons p l => rfl
  have hcomb : ∀ nv, names_combined nv (some ns) =
      dictUpdate (dictUpdate DEFAULT_NAMES [("now", nv)]) ns := by
    intro nv
    simp [names_combined, hne]
  have hlook : ∀ nv, dictLookup (names_combined nv (some ns)) k = some v := by
    intro nv
    rw [hcomb nv]
    exact dictLookup_append_of_some h
  refine ⟨fun nv => ⟨hcomb nv, hlook nv⟩, ?_⟩
  intro clock t hp
  rw [eval_expression_fst]
  simp only [simple_eval, hp]
  rw [hlook (Value.VDatetime (clock t))]

/-- C8 witness: the caller's binding of `now` itself wins over the engine's
wall-clock binding. -/
theorem registry_caller_overrides_witness :
    (eval_expression (fun _ => 0) 0 "now".data (some [("now", Value.VNum 7)])).1 =
      Except.ok (Value.VNum 7) :=
  (registry_caller_overrides [("now", Value.VNum 7)] "now" (Value.VNum 7) rfl).2
    (fun _ => 0) 0 rfl

/-- C9: neither `eval_expression` nor `eval_template` mutates the
caller-supplied names: the caller's dict after either call — on success and
on failure alike — is the dict that was passed in (the engine only copies it
into the freshly built combined registry). -/
theorem caller_names_unchanged (clock : Clock) (t : Nat) (s : List Char) (ns : Option Dict) :
    (eval_expression clock t s ns).2.2 = ns ∧ (eval_template clock t s ns).2.2 = ns :=
  ⟨rfl, renderPieces_names clock (splitTemplate s) t ns⟩

end TemplateEval
